import Mathlib

/-!
Shallow embedding of `easyplot.py` (class `EasyPlot`), a stateful matplotlib
wrapper.  Python dictionaries are modelled as insertion-ordered association
lists with unique keys; the matplotlib calls performed by the wrapper are
recorded as an explicit effect trace; fallible code (KeyError on a missing
dictionary key, AttributeError when `None` is used as a figure or axes) is
modelled with `Except`.
-/

/-- Python values as they occur in the wrapper: `None`, booleans, integers,
floats (exactly representable ones, as rationals), strings, and opaque
matplotlib objects (figures, axes) identified by a numeric handle. -/
inductive Val where
  | none : Val
  | bool : Bool → Val
  | int : Int → Val
  | num : Rat → Val
  | str : String → Val
  | handle : Nat → Val
deriving DecidableEq, Repr

/-- Python truthiness of a value, as used by `if self.kwargs['showlegend']:`
and `if reset:`. -/
def Val.truthy : Val → Bool
  | Val.none => false
  | Val.bool b => b
  | Val.int n => n ≠ 0
  | Val.num q => q ≠ 0
  | Val.str s => s ≠ ""
  | Val.handle _ => true

/-- A Python dict with string keys: insertion-ordered association list. -/
abbrev Dict := List (String × Val)

/-- `d[k]` as a lookup: first entry with key `k`. -/
def dget : Dict → String → Option Val
  | [], _ => Option.none
  | (k', v) :: rest, k => if k' = k then some v else dget rest k

/-- `d[k] = v`: replace the value in place if the key exists, else append
at the end (Python dict insertion-order semantics). -/
def dset : Dict → String → Val → Dict
  | [], k, v => [(k, v)]
  | (k', v') :: rest, k, v =>
    if k' = k then (k, v) :: rest else (k', v') :: dset rest k v

/-- `d.pop(k, None)`: remove the entry with key `k` if present. -/
def dpop : Dict → String → Dict
  | [], _ => []
  | (k', v') :: rest, k => if k' = k then rest else (k', v') :: dpop rest k

/-- The keys of a dict, in order. -/
def dkeys (d : Dict) : List String := d.map Prod.fst

/-- Well-formedness of a dict: no duplicate keys (every real Python dict
satisfies this). -/
def WFd (d : Dict) : Prop := (dkeys d).Nodup

instance (d : Dict) : Decidable (WFd d) := by
  unfold WFd; infer_instance

/-- `EasyPlot._default_kwargs`, in source order. -/
def defaultKwargs : Dict :=
  [("fig", Val.none), ("ax", Val.none), ("figsize", Val.none),
   ("label", Val.none), ("showlegend", Val.bool false),
   ("fancybox", Val.bool true), ("framealpha", Val.num 1),
   ("loc", Val.str "best"), ("numpoints", Val.int 1)]

/-- `EasyPlot.alias_dict`, in source order. -/
def aliasList : List (String × String) :=
  [("lw", "linewidth"), ("ls", "linestyle"), ("mfc", "markerfacecolor"),
   ("mew", "markeredgewidth"), ("mec", "markeredgecolor"),
   ("ms", "markersize"), ("mev", "markevery"), ("c", "color"),
   ("fs", "fontsize")]

/-- `EasyPlot.plot_kwargs`: option names forwarded to the line-draw call. -/
def plotKwargsList : List String :=
  ["label", "linewidth", "linestyle", "marker", "markerfacecolor",
   "markeredgewidth", "markersize", "markeredgecolor", "markevery", "alpha"]

/-- `EasyPlot._uniqueparams`: single-use option keys. -/
def uniqueParams : List String :=
  ["color", "label", "linestyle", "marker", "colorcycle"]

/-- `EasyPlot._ax_funcs`: option key to axes-configuration method name. -/
def axFuncsList : List (String × String) :=
  [("xlabel", "set_xlabel"), ("ylabel", "set_ylabel"), ("xlim", "set_xlim"),
   ("ylim", "set_ylim"), ("title", "set_title"),
   ("colorcycle", "set_color_cycle")]

/-- Lookup in a string-to-string association list (`self._ax_funcs[kwarg]`). -/
def alookup : List (String × String) → String → Option String
  | [], _ => Option.none
  | (k, v) :: rest, key => if k = key then some v else alookup rest key

/-- One call into the external rendering capability (matplotlib). -/
inductive Effect where
  | createFig : Val → Effect
  | addAxes : Val → Val → Effect
  | plotLine : Val → List Val → Dict → Effect
  | axConf : Val → String → Val → Effect
  | legend : Val → Val → Val → Val → Val → Effect
  | setFontSize : Val → Effect
  | figShow : Effect
  | draw : Effect
  | autoscaleEff : Val → Val → Val → Effect
deriving DecidableEq, Repr

/-- The mutable state of an `EasyPlot` session: `self.kwargs`, `self.args`,
`self.line_list`, `self.isnewargs`, plus `fresh`, the supply of unused
handle numbers standing for matplotlib's object allocation. -/
structure EasyPlot where
  kwargs : Dict
  args : List Val
  line_list : List Nat
  isnewargs : Bool
  fresh : Nat
deriving DecidableEq, Repr

/-- `EasyPlot._update`, alias-resolution loop: for each alias in
`alias_dict` order, if the alias is in the call's kwargs, write its value
under the canonical name into `self.kwargs` and pop it from the call's
kwargs.  Returns (updated `self.kwargs`, remaining call kwargs). -/
def applyAliasesAux : List (String × String) → Dict → Dict → Dict × Dict
  | [], skw, kw => (skw, kw)
  | (a, canon) :: rest, skw, kw =>
    match dget kw a with
    | some v => applyAliasesAux rest (dset skw canon v) (dpop kw a)
    | Option.none => applyAliasesAux rest skw kw

/-- `EasyPlot._update`, final merge loop: `self.kwargs[key] = kwargs[key]`
for each remaining key, in order. -/
def mergeAll : Dict → Dict → Dict
  | skw, [] => skw
  | skw, (k, v) :: rest => mergeAll (dset skw k v) rest

/-- `EasyPlot._update(*args, **kwargs)`: record new positional args (setting
`isnewargs`), resolve aliases, then merge the kwargs into `self.kwargs`. -/
def updateVars (s : EasyPlot) (args : List Val) (kw : Dict) : EasyPlot :=
  let s1 := if args.isEmpty then { s with isnewargs := false }
            else { s with args := args, isnewargs := true }
  let p := applyAliasesAux aliasList s1.kwargs kw
  { s1 with kwargs := mergeAll p.1 p.2 }

/-- `EasyPlot._delete_uniqueparams`, pop loop. -/
def popAll : List String → Dict → Dict
  | [], d => d
  | k :: rest, d => popAll rest (dpop d k)

/-- `EasyPlot._delete_uniqueparams`: pop every single-use key. -/
def deleteUniqueparams (d : Dict) : Dict := popAll uniqueParams d

/-- `EasyPlot._reset(reset=...)` followed by `new_plot`'s clearing of the
`fig`/`ax` entries: the state of the session at the point where `new_plot`
hands over to `add_plot`. -/
def new_prep (s : EasyPlot) (kw : Dict) : EasyPlot :=
  let resetv := (dget kw "reset").getD (Val.bool false)
  let s1 := { s with
    args := ([] : List Val)
    line_list := ([] : List Nat)
    kwargs := if resetv.truthy then defaultKwargs else s.kwargs }
  { s1 with kwargs := dset (dset s1.kwargs "fig" Val.none) "ax" Val.none }

/-- `plt.fignum_exists(fig.number)` followed by `fig.show()`/`fig.canvas.draw()`:
the effects of `EasyPlot.redraw` for a given figure value.  Anything but a
figure handle has no `.number` attribute. -/
def redrawEffects (figv : Val) (figExists : Nat → Bool) :
    Except String (List Effect) :=
  match figv with
  | Val.handle n =>
      Except.ok (if figExists n then [Effect.draw]
                 else [Effect.figShow, Effect.draw])
  | _ => Except.error "AttributeError"

/-- `EasyPlot.redraw`: read `self.kwargs['fig']` and repaint. -/
def redraw (s : EasyPlot) (figExists : Nat → Bool) :
    Except String (List Effect) :=
  match dget s.kwargs "fig" with
  | Option.none => Except.error "KeyError"
  | some figv => redrawEffects figv figExists

/-- `EasyPlot.set_fontsize`: set the process-wide font size, then redraw. -/
def set_fontsize (s : EasyPlot) (v : Val) (figExists : Nat → Bool) :
    Except String (List Effect) :=
  match redraw s figExists with
  | Except.error e => Except.error e
  | Except.ok r => Except.ok (Effect.setFontSize v :: r)

/-- The dict comprehension in `add_plot`:
`{kwarg: self.kwargs[kwarg] for kwarg in self.plot_kwargs if kwarg in self.kwargs}`. -/
def plotKwargsFilter : List String → Dict → Dict
  | [], _ => []
  | k :: rest, d =>
    match dget d k with
    | some v => (k, v) :: plotKwargsFilter rest d
    | Option.none => plotKwargsFilter rest d

/-- The name/value dict passed to `ax.plot`, including the
`if 'color' in self.kwargs` special case. -/
def mkPlotKwargs (d : Dict) : Dict :=
  let base := plotKwargsFilter plotKwargsList d
  match dget d "color" with
  | some v => dset base "color" v
  | Option.none => base

/-- The figure-creation block of `add_plot`: if `self.kwargs['fig']` is
`None`, create a fresh figure (honouring `figsize`) and a fresh axes via
`plt.gca()`, and attach the axes to the figure. -/
def figStage (s : EasyPlot) : Except String (EasyPlot × List Effect) :=
  match dget s.kwargs "fig" with
  | Option.none => Except.error "KeyError"
  | some figv =>
    if figv = Val.none then
      match dget s.kwargs "figsize" with
      | Option.none => Except.error "KeyError"
      | some fsz =>
        Except.ok
          ({ s with
             kwargs := dset (dset s.kwargs "fig" (Val.handle s.fresh)) "ax"
                         (Val.handle (s.fresh + 1))
             fresh := s.fresh + 2 },
           [Effect.createFig fsz,
            Effect.addAxes (Val.handle s.fresh) (Val.handle (s.fresh + 1))])
    else Except.ok (s, [])

/-- The `if self.isnewargs:` block of `add_plot`: draw a new line from
`self.args` and the forwarded plot kwargs, appending its handle to
`self.line_list`.  `ax.plot` on a non-axes value raises. -/
def plotStage (s : EasyPlot) (ax : Val) : Except String (EasyPlot × List Effect) :=
  if s.isnewargs then
    match ax with
    | Val.handle _ =>
      Except.ok
        ({ s with
           line_list := s.line_list ++ [s.fresh]
           fresh := s.fresh + 1 },
         [Effect.plotLine ax s.args (mkPlotKwargs s.kwargs)])
    | _ => Except.error "AttributeError"
  else Except.ok (s, [])

/-- The axes-function loop of `add_plot`: for every kwarg in `self.kwargs`
(insertion order) that names an axes-configuration action, invoke it. -/
def axStage (d : Dict) (ax : Val) : Except String (List Effect) :=
  match d with
  | [] => Except.ok []
  | (k, v) :: rest =>
    match alookup axFuncsList k with
    | some fname =>
      match ax with
      | Val.handle _ =>
        (match axStage rest ax with
         | Except.error e => Except.error e
         | Except.ok effs => Except.ok (Effect.axConf ax fname v :: effs))
      | _ => Except.error "AttributeError"
    | Option.none => axStage rest ax

/-- The legend block of `add_plot`: render a draggable legend when
`showlegend` is truthy. -/
def legendStage (d : Dict) (ax : Val) : Except String (List Effect) :=
  match dget d "showlegend" with
  | Option.none => Except.error "KeyError"
  | some sl =>
    if sl.truthy then
      match dget d "fancybox", dget d "framealpha", dget d "loc",
            dget d "numpoints" with
      | some fb, some fa, some lc, some np =>
        (match ax with
         | Val.handle _ => Except.ok [Effect.legend ax fb fa lc np]
         | _ => Except.error "AttributeError")
      | _, _, _, _ => Except.error "KeyError"
    else Except.ok []

/-- The `if 'fontsize' in self.kwargs:` block of `add_plot`. -/
def fontsizeStage (s : EasyPlot) (figExists : Nat → Bool) :
    Except String (List Effect) :=
  match dget s.kwargs "fontsize" with
  | Option.none => Except.ok []
  | some v => set_fontsize s v figExists

/-- `EasyPlot.add_plot(*args, **kwargs)`: merge, create figure/axes if
needed, draw the new line if positional data was supplied, apply axes
functions, legend and fontsize, delete single-use keys, redraw. -/
def add_plot (s : EasyPlot) (args : List Val) (kw : Dict)
    (figExists : Nat → Bool) : Except String (EasyPlot × List Effect) :=
  let s1 := updateVars s args kw
  match figStage s1 with
  | Except.error e => Except.error e
  | Except.ok (s2, e0) =>
    match dget s2.kwargs "ax", dget s2.kwargs "fig" with
    | some ax, some _ =>
      match plotStage s2 ax with
      | Except.error e => Except.error e
      | Except.ok (s3, e1) =>
        match axStage s3.kwargs ax with
        | Except.error e => Except.error e
        | Except.ok e2 =>
          match legendStage s3.kwargs ax with
          | Except.error e => Except.error e
          | Except.ok e3 =>
            match fontsizeStage s3 figExists with
            | Except.error e => Except.error e
            | Except.ok e4 =>
              let s4 := { s3 with kwargs := deleteUniqueparams s3.kwargs }
              match redraw s4 figExists with
              | Except.error e => Except.error e
              | Except.ok e5 =>
                Except.ok (s4, e0 ++ e1 ++ e2 ++ e3 ++ e4 ++ e5)
    | _, _ => Except.error "KeyError"

/-- `EasyPlot.update_plot(**kwargs)`: `self.add_plot(**kwargs)`. -/
def update_plot (s : EasyPlot) (kw : Dict) (figExists : Nat → Bool) :
    Except String (EasyPlot × List Effect) :=
  add_plot s [] kw figExists

/-- `EasyPlot.new_plot(*args, **kwargs)`: reset (keeping or restoring the
options), drop the figure/axes, then behave as `add_plot`.  Note the
`reset` key is not removed from the kwargs before they are forwarded. -/
def new_plot (s : EasyPlot) (args : List Val) (kw : Dict)
    (figExists : Nat → Bool) : Except String (EasyPlot × List Effect) :=
  add_plot (new_prep s kw) args kw figExists

/-- `EasyPlot.get_figure`. -/
def get_figure (s : EasyPlot) : Except String Val :=
  match dget s.kwargs "fig" with
  | Option.none => Except.error "KeyError"
  | some v => Except.ok v

/-- `EasyPlot.get_axes`. -/
def get_axes (s : EasyPlot) : Except String Val :=
  match dget s.kwargs "ax" with
  | Option.none => Except.error "KeyError"
  | some v => Except.ok v

/-- `EasyPlot.autoscale(enable, axis, tight)`: forward to `ax.autoscale`,
then redraw.  The session state is returned unchanged. -/
def autoscale (s : EasyPlot) (enable axis tight : Val)
    (figExists : Nat → Bool) : Except String (EasyPlot × List Effect) :=
  match get_axes s with
  | Except.error e => Except.error e
  | Except.ok ax =>
    match ax with
    | Val.handle _ =>
      (match redraw s figExists with
       | Except.error e => Except.error e
       | Except.ok r =>
           Except.ok (s, Effect.autoscaleEff enable axis tight :: r))
    | _ => Except.error "AttributeError"

/-- The session state set up by `EasyPlot.__init__` just before it calls
`add_plot`: default kwargs, empty args, empty line list. -/
def initState : EasyPlot :=
  { kwargs := defaultKwargs
    args := ([] : List Val)
    line_list := ([] : List Nat)
    isnewargs := false
    fresh := 0 }

/-- `EasyPlot.__init__(*args, **kwargs)`: set up defaults, then `add_plot`. -/
def construct (args : List Val) (kw : Dict) (figExists : Nat → Bool) :
    Except String (EasyPlot × List Effect) :=
  add_plot initState args kw figExists

/-- Environment in which every figure number is currently open. -/
def allOpen : Nat → Bool := fun _ => true

/-- The default keys other than `label` (which is also a single-use key). -/
def persistentDefaultKeys : List String :=
  ["fig", "ax", "figsize", "showlegend", "fancybox", "framealpha", "loc",
   "numpoints"]

/-- All default keys except `label` are present in the session's options. -/
def defaultsPresentB (s : EasyPlot) : Bool :=
  persistentDefaultKeys.all (fun k => (dget s.kwargs k).isSome)

/-- The options dict of a session after `EasyPlot()` with no arguments. -/
def postInitKwargs : Dict :=
  [("fig", Val.handle 0), ("ax", Val.handle 1), ("figsize", Val.none),
   ("showlegend", Val.bool false), ("fancybox", Val.bool true),
   ("framealpha", Val.num 1), ("loc", Val.str "best"),
   ("numpoints", Val.int 1)]

/-- The session state after `EasyPlot()` with no arguments. -/
def postInitState : EasyPlot :=
  { kwargs := postInitKwargs
    args := ([] : List Val)
    line_list := ([] : List Nat)
    isnewargs := false
    fresh := 2 }

/-- The effect trace of `EasyPlot()` with no positional data. -/
def initEffects : List Effect :=
  [Effect.createFig Val.none, Effect.addAxes (Val.handle 0) (Val.handle 1),
   Effect.draw]

/-- The session state after `EasyPlot(1)`: one line drawn. -/
def onePlotState : EasyPlot :=
  { kwargs := postInitKwargs
    args := [Val.int 1]
    line_list := [2]
    isnewargs := true
    fresh := 3 }

/-- The effect trace of `EasyPlot(1)`. -/
def onePlotEffects : List Effect :=
  [Effect.createFig Val.none, Effect.addAxes (Val.handle 0) (Val.handle 1),
   Effect.plotLine (Val.handle 1) [Val.int 1] [("label", Val.none)],
   Effect.draw]

/-- The session state after `EasyPlot(1)` followed by `add_plot()`:
the positional args of the first call are still stored. -/
def staleArgsState : EasyPlot :=
  { kwargs := postInitKwargs
    args := [Val.int 1]
    line_list := [2]
    isnewargs := false
    fresh := 3 }

/-- The session state after `EasyPlot(fig=<handle 99>)`: the externally
supplied figure suppresses axes creation, so `ax` is still `None`. -/
def figOnlyState : EasyPlot :=
  { kwargs := [("fig", Val.handle 99), ("ax", Val.none), ("figsize", Val.none),
               ("showlegend", Val.bool false), ("fancybox", Val.bool true),
               ("framealpha", Val.num 1), ("loc", Val.str "best"),
               ("numpoints", Val.int 1)]
    args := ([] : List Val)
    line_list := ([] : List Nat)
    isnewargs := false
    fresh := 0 }

/-- The session state after `EasyPlot()` followed by
`add_plot(5, ax=<handle 77>)`: the caller-supplied axes is kept and drawn
to, because a figure handle is already present. -/
def axSuppliedState : EasyPlot :=
  { kwargs := [("fig", Val.handle 0), ("ax", Val.handle 77),
               ("figsize", Val.none), ("showlegend", Val.bool false),
               ("fancybox", Val.bool true), ("framealpha", Val.num 1),
               ("loc", Val.str "best"), ("numpoints", Val.int 1)]
    args := [Val.int 5]
    line_list := [2]
    isnewargs := true
    fresh := 3 }

/-- The session state after `EasyPlot(lw=1, linewidth=2)`: the canonical
key's value is the one stored. -/
def lwState : EasyPlot :=
  { kwargs := postInitKwargs ++ [("linewidth", Val.int 2)]
    args := ([] : List Val)
    line_list := ([] : List Nat)
    isnewargs := false
    fresh := 2 }

/-! ## Lemmas about the dict operations -/

theorem dget_dset (d : Dict) (k : String) (v : Val) (q : String) :
    dget (dset d k v) q = if k = q then some v else dget d q := by
  induction d with
  | nil => by_cases h : k = q <;> simp [dset, dget, h]
  | cons p rest ih =>
    obtain ⟨k', v'⟩ := p
    by_cases h : k' = k
    · subst h
      by_cases hq : k' = q <;> simp [dset, dget, hq]
    · by_cases hq : k' = q
      · subst hq
        have : ¬k = k' := fun hh => h hh.symm
        simp [dset, dget, h, this]
      · simp [dset, dget, h, hq, ih]

theorem dget_dpop_ne (d : Dict) (k q : String) (h : k ≠ q) :
    dget (dpop d k) q = dget d q := by
  induction d with
  | nil => simp [dpop]
  | cons p rest ih =>
    obtain ⟨k', v'⟩ := p
    by_cases hk : k' = k
    · subst hk
      have : ¬k' = q := fun hh => h hh
      simp [dpop, dget, this]
    · simp only [dpop, hk, if_neg hk]
      by_cases hq : k' = q <;> simp [dget, hq, ih]


theorem dkeys_nil : dkeys [] = [] := rfl

theorem dkeys_cons (p : String × Val) (rest : Dict) :
    dkeys (p :: rest) = p.1 :: dkeys rest := rfl

theorem dset_cons_self (k : String) (v' v : Val) (rest : Dict) :
    dset ((k, v') :: rest) k v = (k, v) :: rest := by simp [dset]

theorem dset_cons_ne (k' k : String) (v' v : Val) (rest : Dict)
    (h : k' ≠ k) : dset ((k', v') :: rest) k v = (k', v') :: dset rest k v := by
  simp [dset, h]

theorem dpop_cons_self (k : String) (v' : Val) (rest : Dict) :
    dpop ((k, v') :: rest) k = rest := by simp [dpop]

theorem dpop_cons_ne (k' k : String) (v' : Val) (rest : Dict) (h : k' ≠ k) :
    dpop ((k', v') :: rest) k = (k', v') :: dpop rest k := by simp [dpop, h]

theorem dget_cons_self (k : String) (v : Val) (rest : Dict) :
    dget ((k, v) :: rest) k = some v := by simp [dget]

theorem dget_cons_ne (k' k : String) (v' : Val) (rest : Dict) (h : k' ≠ k) :
    dget ((k', v') :: rest) k = dget rest k := by simp [dget, h]

theorem dget_dpop_none (d : Dict) (k q : String) (h : dget d q = Option.none) :
    dget (dpop d k) q = Option.none := by
  induction d with
  | nil => simpa [dpop] using h
  | cons p rest ih =>
    obtain ⟨k', v'⟩ := p
    by_cases hq : k' = q
    · subst hq
      rw [dget_cons_self] at h
      exact absurd h (by simp)
    · rw [dget_cons_ne k' q v' rest hq] at h
      by_cases hk : k' = k
      · subst hk
        rw [dpop_cons_self]
        exact h
      · rw [dpop_cons_ne k' k v' rest hk, dget_cons_ne k' q v' _ hq]
        exact ih h

theorem mem_dkeys_dset (d : Dict) (k : String) (v : Val) (q : String) :
    q ∈ dkeys (dset d k v) ↔ q = k ∨ q ∈ dkeys d := by
  induction d with
  | nil => simp [dset, dkeys]
  | cons p rest ih =>
    obtain ⟨k', v'⟩ := p
    by_cases h : k' = k
    · subst h
      rw [dset_cons_self, dkeys_cons, dkeys_cons]
      simp only [List.mem_cons]
      tauto
    · rw [dset_cons_ne k' k v' v rest h, dkeys_cons, dkeys_cons]
      simp only [List.mem_cons, ih]
      tauto

theorem wfd_dset (d : Dict) (k : String) (v : Val) (h : WFd d) :
    WFd (dset d k v) := by
  induction d with
  | nil => simp [dset, WFd, dkeys]
  | cons p rest ih =>
    obtain ⟨k', v'⟩ := p
    rw [WFd, dkeys_cons, List.nodup_cons] at h
    obtain ⟨hnot, hrest⟩ := h
    by_cases hk : k' = k
    · subst hk
      rw [dset_cons_self, WFd, dkeys_cons, List.nodup_cons]
      exact ⟨hnot, hrest⟩
    · rw [dset_cons_ne k' k v' v rest hk, WFd, dkeys_cons, List.nodup_cons]
      refine ⟨fun hmem => ?_, ih hrest⟩
      rcases (mem_dkeys_dset rest k v k').mp hmem with h1 | h1
      · exact hk h1
      · exact hnot h1

theorem mem_dkeys_dpop (d : Dict) (k q : String)
    (h : q ∈ dkeys (dpop d k)) : q ∈ dkeys d := by
  induction d with
  | nil => simpa [dpop] using h
  | cons p rest ih =>
    obtain ⟨k', v'⟩ := p
    by_cases hk : k' = k
    · subst hk
      rw [dpop_cons_self] at h
      rw [dkeys_cons]
      exact List.mem_cons_of_mem _ h
    · rw [dpop_cons_ne k' k v' rest hk, dkeys_cons] at h
      rw [dkeys_cons]
      rcases List.mem_cons.mp h with h1 | h1
      · exact List.mem_cons.mpr (Or.inl h1)
      · exact List.mem_cons.mpr (Or.inr (ih h1))

theorem wfd_dpop (d : Dict) (k : String) (h : WFd d) : WFd (dpop d k) := by
  induction d with
  | nil => simpa [dpop] using h
  | cons p rest ih =>
    obtain ⟨k', v'⟩ := p
    rw [WFd, dkeys_cons, List.nodup_cons] at h
    obtain ⟨hnot, hrest⟩ := h
    by_cases hk : k' = k
    · subst hk
      rw [dpop_cons_self]
      exact hrest
    · rw [dpop_cons_ne k' k v' rest hk, WFd, dkeys_cons, List.nodup_cons]
      exact ⟨fun hmem => hnot (mem_dkeys_dpop rest k k' hmem), ih hrest⟩

theorem dget_eq_none_of_not_mem (d : Dict) (q : String)
    (h : q ∉ dkeys d) : dget d q = Option.none := by
  induction d with
  | nil => simp [dget]
  | cons p rest ih =>
    obtain ⟨k', v'⟩ := p
    rw [dkeys_cons] at h
    have h1 : k' ≠ q := fun hh => h (List.mem_cons.mpr (Or.inl hh.symm))
    have h2 : q ∉ dkeys rest := fun hm => h (List.mem_cons.mpr (Or.inr hm))
    rw [dget_cons_ne k' q v' rest h1]
    exact ih h2

theorem dget_dpop_self (d : Dict) (k : String) (h : WFd d) :
    dget (dpop d k) k = Option.none := by
  induction d with
  | nil => simp [dpop, dget]
  | cons p rest ih =>
    obtain ⟨k', v'⟩ := p
    rw [WFd, dkeys_cons, List.nodup_cons] at h
    obtain ⟨hnot, hrest⟩ := h
    by_cases hk : k' = k
    · subst hk
      rw [dpop_cons_self]
      exact dget_eq_none_of_not_mem rest k' hnot
    · rw [dpop_cons_ne k' k v' rest hk, dget_cons_ne k' k v' _ hk]
      exact ih hrest

/-! ## Lemmas about merging, alias resolution and unique-parameter deletion -/

theorem dget_mergeAll_nokey (kw : Dict) (d : Dict) (q : String)
    (h : dget kw q = Option.none) : dget (mergeAll d kw) q = dget d q := by
  induction kw generalizing d with
  | nil => rfl
  | cons p rest ih =>
    obtain ⟨k, v⟩ := p
    by_cases hk : k = q
    · subst hk
      rw [dget_cons_self] at h
      exact absurd h (by simp)
    · rw [dget_cons_ne k q v rest hk] at h
      show dget (mergeAll (dset d k v) rest) q = dget d q
      rw [ih (dset d k v) h, dget_dset, if_neg hk]

theorem dget_mergeAll_none (kw : Dict) (d : Dict) (q : String)
    (h1 : dget d q = Option.none) (h2 : dget kw q = Option.none) :
    dget (mergeAll d kw) q = Option.none := by
  rw [dget_mergeAll_nokey kw d q h2]
  exact h1

theorem dget_mergeAll_of_wf (kw : Dict) (d : Dict) (q : String) (v : Val)
    (hw : WFd kw) (hg : dget kw q = some v) :
    dget (mergeAll d kw) q = some v := by
  induction kw generalizing d with
  | nil => simp [dget] at hg
  | cons p rest ih =>
    obtain ⟨k, w⟩ := p
    rw [WFd, dkeys_cons, List.nodup_cons] at hw
    obtain ⟨hnot, hrest⟩ := hw
    by_cases hk : k = q
    · subst hk
      rw [dget_cons_self] at hg
      have hnone : dget rest k = Option.none :=
        dget_eq_none_of_not_mem rest k hnot
      show dget (mergeAll (dset d k w) rest) k = some v
      rw [dget_mergeAll_nokey rest (dset d k w) k hnone, dget_dset, if_pos rfl]
      exact hg
    · rw [dget_cons_ne k q w rest hk] at hg
      exact ih (dset d k w) hrest hg

theorem isSome_dget_mergeAll (kw : Dict) (d : Dict) (q : String)
    (h : (dget d q).isSome) : (dget (mergeAll d kw) q).isSome := by
  induction kw generalizing d with
  | nil => exact h
  | cons p rest ih =>
    obtain ⟨k, v⟩ := p
    show (dget (mergeAll (dset d k v) rest) q).isSome
    refine ih (dset d k v) ?_
    rw [dget_dset]
    by_cases hk : k = q <;> simp [hk, h]

theorem wfd_mergeAll (kw : Dict) (d : Dict) (h : WFd d) :
    WFd (mergeAll d kw) := by
  induction kw generalizing d with
  | nil => exact h
  | cons p rest ih =>
    obtain ⟨k, v⟩ := p
    exact ih (dset d k v) (wfd_dset d k v h)

theorem dget_popAll_not_mem (l : List String) (d : Dict) (q : String)
    (h : q ∉ l) : dget (popAll l d) q = dget d q := by
  induction l generalizing d with
  | nil => rfl
  | cons k rest ih =>
    have hq : k ≠ q := fun hh => h (List.mem_cons.mpr (Or.inl hh.symm))
    have hrest : q ∉ rest := fun hm => h (List.mem_cons.mpr (Or.inr hm))
    show dget (popAll rest (dpop d k)) q = dget d q
    rw [ih (dpop d k) hrest, dget_dpop_ne d k q hq]

theorem dget_popAll_none (l : List String) (d : Dict) (q : String)
    (h : dget d q = Option.none) : dget (popAll l d) q = Option.none := by
  induction l generalizing d with
  | nil => exact h
  | cons k rest ih =>
    exact ih (dpop d k) (dget_dpop_none d k q h)

theorem wfd_popAll (l : List String) (d : Dict) (h : WFd d) :
    WFd (popAll l d) := by
  induction l generalizing d with
  | nil => exact h
  | cons k rest ih => exact ih (dpop d k) (wfd_dpop d k h)

theorem dget_popAll_mem (l : List String) (d : Dict) (q : String)
    (hw : WFd d) (h : q ∈ l) : dget (popAll l d) q = Option.none := by
  induction l generalizing d with
  | nil => simp at h
  | cons k rest ih =>
    by_cases hq : q = k
    · subst hq
      show dget (popAll rest (dpop d q)) q = Option.none
      exact dget_popAll_none rest (dpop d q) q (dget_dpop_self d q hw)
    · have hmem : q ∈ rest := by
        rcases List.mem_cons.mp h with h1 | h1
        · exact absurd h1 hq
        · exact h1
      exact ih (dpop d k) (wfd_dpop d k hw) hmem

theorem applyAliases_snd_dget (al : List (String × String)) (skw kw : Dict)
    (q : String) (h : ∀ p ∈ al, p.1 ≠ q) :
    dget (applyAliasesAux al skw kw).2 q = dget kw q := by
  induction al generalizing skw kw with
  | nil => rfl
  | cons a rest ih =>
    obtain ⟨src, canon⟩ := a
    have hsrc : src ≠ q := h (src, canon) (List.mem_cons_self _ _)
    have htail : ∀ p ∈ rest, p.1 ≠ q :=
      fun p hp => h p (List.mem_cons_of_mem _ hp)
    show dget (match dget kw src with
      | some v => applyAliasesAux rest (dset skw canon v) (dpop kw src)
      | Option.none => applyAliasesAux rest skw kw).2 q = dget kw q
    cases hv : dget kw src with
    | none => exact ih skw kw htail
    | some v =>
      rw [ih (dset skw canon v) (dpop kw src) htail]
      exact dget_dpop_ne kw src q hsrc

theorem applyAliases_dget_none (al : List (String × String)) (skw kw : Dict)
    (q : String) (h1 : dget skw q = Option.none)
    (h2 : dget kw q = Option.none)
    (h3 : ∀ p ∈ al, p.2 = q → dget kw p.1 = Option.none) :
    dget (applyAliasesAux al skw kw).1 q = Option.none ∧
    dget (applyAliasesAux al skw kw).2 q = Option.none := by
  induction al generalizing skw kw with
  | nil => exact ⟨h1, h2⟩
  | cons a rest ih =>
    obtain ⟨src, canon⟩ := a
    have htail : ∀ p ∈ rest, p.2 = q → dget kw p.1 = Option.none :=
      fun p hp => h3 p (List.mem_cons_of_mem _ hp)
    show dget (match dget kw src with
      | some v => applyAliasesAux rest (dset skw canon v) (dpop kw src)
      | Option.none => applyAliasesAux rest skw kw).1 q = Option.none ∧
      dget (match dget kw src with
      | some v => applyAliasesAux rest (dset skw canon v) (dpop kw src)
      | Option.none => applyAliasesAux rest skw kw).2 q = Option.none
    cases hv : dget kw src with
    | none => exact ih skw kw h1 h2 htail
    | some v =>
      have hcq : canon ≠ q := by
        intro hh
        have := h3 (src, canon) (List.mem_cons_self _ _) hh
        rw [this] at hv
        exact absurd hv (by simp)
      refine ih (dset skw canon v) (dpop kw src) ?_ ?_ ?_
      · rw [dget_dset, if_neg hcq]
        exact h1
      · exact dget_dpop_none kw src q h2
      · intro p hp hpq
        exact dget_dpop_none kw src p.1
          (h3 p (List.mem_cons_of_mem _ hp) hpq)

theorem applyAliases_fst_isSome (al : List (String × String)) (skw kw : Dict)
    (q : String) (h : (dget skw q).isSome) :
    (dget (applyAliasesAux al skw kw).1 q).isSome := by
  induction al generalizing skw kw with
  | nil => exact h
  | cons a rest ih =>
    obtain ⟨src, canon⟩ := a
    show (dget (match dget kw src with
      | some v => applyAliasesAux rest (dset skw canon v) (dpop kw src)
      | Option.none => applyAliasesAux rest skw kw).1 q).isSome
    cases hv : dget kw src with
    | none => exact ih skw kw h
    | some v =>
      refine ih (dset skw canon v) (dpop kw src) ?_
      rw [dget_dset]
      by_cases hk : canon = q <;> simp [hk, h]

theorem wfd_applyAliases_fst (al : List (String × String)) (skw kw : Dict)
    (h : WFd skw) : WFd (applyAliasesAux al skw kw).1 := by
  induction al generalizing skw kw with
  | nil => exact h
  | cons a rest ih =>
    obtain ⟨src, canon⟩ := a
    show WFd (match dget kw src with
      | some v => applyAliasesAux rest (dset skw canon v) (dpop kw src)
      | Option.none => applyAliasesAux rest skw kw).1
    cases hv : dget kw src with
    | none => exact ih skw kw h
    | some v => exact ih (dset skw canon v) (dpop kw src) (wfd_dset skw canon v h)

theorem wfd_applyAliases_snd (al : List (String × String)) (skw kw : Dict)
    (h : WFd kw) : WFd (applyAliasesAux al skw kw).2 := by
  induction al generalizing skw kw with
  | nil => exact h
  | cons a rest ih =>
    obtain ⟨src, canon⟩ := a
    show WFd (match dget kw src with
      | some v => applyAliasesAux rest (dset skw canon v) (dpop kw src)
      | Option.none => applyAliasesAux rest skw kw).2
    cases hv : dget kw src with
    | none => exact ih skw kw h
    | some v => exact ih (dset skw canon v) (dpop kw src) (wfd_dpop kw src h)

theorem updateVars_kwargs (s : EasyPlot) (args : List Val) (kw : Dict) :
    (updateVars s args kw).kwargs =
      mergeAll (applyAliasesAux aliasList s.kwargs kw).1
               (applyAliasesAux aliasList s.kwargs kw).2 := by
  cases args <;> rfl

theorem updateVars_line_list (s : EasyPlot) (args : List Val) (kw : Dict) :
    (updateVars s args kw).line_list = s.line_list := by
  cases args <;> rfl

theorem updateVars_fresh (s : EasyPlot) (args : List Val) (kw : Dict) :
    (updateVars s args kw).fresh = s.fresh := by
  cases args <;> rfl

theorem updateVars_isnewargs (s : EasyPlot) (args : List Val) (kw : Dict) :
    (updateVars s args kw).isnewargs = !args.isEmpty := by
  cases args <;> rfl

theorem updateVars_args (s : EasyPlot) (args : List Val) (kw : Dict) :
    (updateVars s args kw).args = if args.isEmpty then s.args else args := by
  cases args <;> rfl

theorem figStage_ok (s s2 : EasyPlot) (e0 : List Effect)
    (h : figStage s = Except.ok (s2, e0)) :
    s2.args = s.args ∧ s2.line_list = s.line_list ∧
    s2.isnewargs = s.isnewargs ∧
    ((s2 = s ∧ ∃ fv, dget s.kwargs "fig" = some fv ∧ fv ≠ Val.none) ∨
     (dget s.kwargs "fig" = some Val.none ∧
      s2.kwargs = dset (dset s.kwargs "fig" (Val.handle s.fresh)) "ax"
                    (Val.handle (s.fresh + 1)) ∧
      s2.fresh = s.fresh + 2)) := by
  unfold figStage at h
  cases hf : dget s.kwargs "fig" with
  | none =>
    rw [hf] at h
    exact absurd h (by simp)
  | some fv =>
    rw [hf] at h
    dsimp only at h
    by_cases hfv : fv = Val.none
    · rw [if_pos hfv] at h
      cases hfs : dget s.kwargs "figsize" with
      | none =>
        rw [hfs] at h
        exact absurd h (by simp)
      | some fsz =>
        rw [hfs] at h
        simp only [Except.ok.injEq, Prod.mk.injEq] at h
        obtain ⟨h1, h2⟩ := h
        subst h1
        refine ⟨rfl, rfl, rfl, Or.inr ⟨?_, rfl, rfl⟩⟩
        rw [hfv]
    · rw [if_neg hfv] at h
      simp only [Except.ok.injEq, Prod.mk.injEq] at h
      obtain ⟨h1, h2⟩ := h
      subst h1
      exact ⟨rfl, rfl, rfl, Or.inl ⟨rfl, fv, rfl, hfv⟩⟩

theorem plotStage_ok (s : EasyPlot) (ax : Val) (s3 : EasyPlot)
    (e1 : List Effect) (h : plotStage s ax = Except.ok (s3, e1)) :
    s3.kwargs = s.kwargs ∧ s3.args = s.args ∧ s3.isnewargs = s.isnewargs ∧
    ((s.isnewargs = false ∧ s3 = s) ∨
     (s.isnewargs = true ∧ s3.line_list = s.line_list ++ [s.fresh] ∧
      s3.fresh = s.fresh + 1)) := by
  unfold plotStage at h
  by_cases hn : s.isnewargs
  · rw [if_pos hn] at h
    cases ax with
    | handle m =>
      simp only [Except.ok.injEq, Prod.mk.injEq] at h
      obtain ⟨h1, h2⟩ := h
      subst h1
      exact ⟨rfl, rfl, rfl, Or.inr ⟨hn, rfl, rfl⟩⟩
    | none => exact absurd h (by simp)
    | bool b => exact absurd h (by simp)
    | int n => exact absurd h (by simp)
    | num q => exact absurd h (by simp)
    | str t => exact absurd h (by simp)
  · rw [if_neg hn] at h
    simp only [Except.ok.injEq, Prod.mk.injEq] at h
    obtain ⟨h1, h2⟩ := h
    subst h1
    exact ⟨rfl, rfl, rfl, Or.inl ⟨Bool.eq_false_iff.mpr hn, rfl⟩⟩

theorem redraw_ok (s : EasyPlot) (fx : Nat → Bool) (r : List Effect)
    (h : redraw s fx = Except.ok r) :
    ∃ n, dget s.kwargs "fig" = some (Val.handle n) ∧
      r = (if fx n then [Effect.draw] else [Effect.figShow, Effect.draw]) := by
  unfold redraw at h
  cases hf : dget s.kwargs "fig" with
  | none =>
    rw [hf] at h
    exact absurd h (by simp)
  | some fv =>
    rw [hf] at h
    dsimp only at h
    unfold redrawEffects at h
    cases fv with
    | handle n =>
      simp only [Except.ok.injEq] at h
      exact ⟨n, rfl, h.symm⟩
    | none => exact absurd h (by simp)
    | bool b => exact absurd h (by simp)
    | int n => exact absurd h (by simp)
    | num q => exact absurd h (by simp)
    | str t => exact absurd h (by simp)

theorem add_plot_ok (s : EasyPlot) (args : List Val) (kw : Dict)
    (fx : Nat → Bool) (s' : EasyPlot) (effs : List Effect)
    (h : add_plot s args kw fx = Except.ok (s', effs)) :
    ∃ s2 e0 ax s3 e1,
      figStage (updateVars s args kw) = Except.ok (s2, e0) ∧
      dget s2.kwargs "ax" = some ax ∧
      plotStage s2 ax = Except.ok (s3, e1) ∧
      s'.kwargs = deleteUniqueparams s3.kwargs ∧
      s'.args = s3.args ∧ s'.line_list = s3.line_list ∧
      s'.isnewargs = s3.isnewargs ∧ s'.fresh = s3.fresh ∧
      (∃ n, dget s'.kwargs "fig" = some (Val.handle n)) := by
  unfold add_plot at h
  dsimp only at h
  cases h1 : figStage (updateVars s args kw) with
  | error e =>
    rw [h1] at h
    exact absurd h (by simp)
  | ok p =>
    obtain ⟨s2, e0⟩ := p
    rw [h1] at h
    dsimp only at h
    cases hax : dget s2.kwargs "ax" with
    | none =>
      rw [hax] at h
      exact absurd h (by simp)
    | some ax =>
      rw [hax] at h
      cases hfg : dget s2.kwargs "fig" with
      | none =>
        rw [hfg] at h
        exact absurd h (by simp)
      | some figv =>
        rw [hfg] at h
        dsimp only at h
        cases h2 : plotStage s2 ax with
        | error e =>
          rw [h2] at h
          exact absurd h (by simp)
        | ok p2 =>
          obtain ⟨s3, e1⟩ := p2
          rw [h2] at h
          dsimp only at h
          cases h3 : axStage s3.kwargs ax with
          | error e =>
            rw [h3] at h
            exact absurd h (by simp)
          | ok e2 =>
            rw [h3] at h
            dsimp only at h
            cases h4 : legendStage s3.kwargs ax with
            | error e =>
              rw [h4] at h
              exact absurd h (by simp)
            | ok e3 =>
              rw [h4] at h
              dsimp only at h
              cases h5 : fontsizeStage s3 fx with
              | error e =>
                rw [h5] at h
                exact absurd h (by simp)
              | ok e4 =>
                rw [h5] at h
                dsimp only at h
                cases h6 : redraw { s3 with kwargs := deleteUniqueparams s3.kwargs } fx with
                | error e =>
                  rw [h6] at h
                  exact absurd h (by simp)
                | ok e5 =>
                  rw [h6] at h
                  simp only [Except.ok.injEq, Prod.mk.injEq] at h
                  obtain ⟨hs, he⟩ := h
                  subst hs
                  obtain ⟨n, hn, hr⟩ := redraw_ok _ fx e5 h6
                  exact ⟨s2, e0, ax, s3, e1, rfl, hax, h2, rfl, rfl, rfl, rfl,
                         rfl, n, hn⟩

/-- C3: an `add` call with no positional arguments leaves the line-handle
list unchanged, and an `add` call with positional arguments appends exactly
one new handle at the end of the list (so `add` never removes handles). -/
theorem C3_add_appends_iff_new_args (s : EasyPlot) (args : List Val)
    (kw : Dict) (fx : Nat → Bool) (s' : EasyPlot) (effs : List Effect)
    (h : add_plot s args kw fx = Except.ok (s', effs)) :
    (args = [] → s'.line_list = s.line_list) ∧
    (args ≠ [] → ∃ hd, s'.line_list = s.line_list ++ [hd]) := by
  obtain ⟨s2, e0, ax, s3, e1, h1, hax, h2, hkw, hargs, hll, hnew, hfr, -⟩ :=
    add_plot_ok s args kw fx s' effs h
  obtain ⟨f1, f2, f3, -⟩ := figStage_ok _ _ _ h1
  obtain ⟨p1, p2, p3, pd⟩ := plotStage_ok _ _ _ _ h2
  constructor
  · intro hae
    have hne : s2.isnewargs = false := by
      rw [f3, updateVars_isnewargs, hae]
      rfl
    rcases pd with hp | hp
    · rw [hll, hp.2, f2, updateVars_line_list]
    · rw [hp.1] at hne
      exact absurd hne (by simp)
  · intro hne'
    have hemp : args.isEmpty = false := by
      cases args with
      | nil => exact absurd rfl hne'
      | cons a as => rfl
    have hnt : s2.isnewargs = true := by
      rw [f3, updateVars_isnewargs, hemp]
      rfl
    rcases pd with hp | hp
    · rw [hp.1] at hnt
      exact absurd hnt (by simp)
    · refine ⟨s2.fresh, ?_⟩
      rw [hll, hp.2.1, f2, updateVars_line_list]

/-- C3 witness: `EasyPlot(1)` appends exactly one line handle. -/
theorem C3_witness :
    [Val.int 1] ≠ ([] : List Val) ∧
    ∃ hd, onePlotState.line_list = initState.line_list ++ [hd] :=
  ⟨by decide,
   (C3_add_appends_iff_new_args initState [Val.int 1] [] allOpen onePlotState
      onePlotEffects rfl).2 (by decide)⟩

/-- C6, amended: an `add` call that supplies positional data stores exactly
those values; an `add` call with no positional data leaves the stored
sequence unchanged (it is not cleared). -/
theorem C6_args_replaced_only_on_new_data (s : EasyPlot) (args : List Val)
    (kw : Dict) (fx : Nat → Bool) (s' : EasyPlot) (effs : List Effect)
    (h : add_plot s args kw fx = Except.ok (s', effs)) :
    (args ≠ [] → s'.args = args) ∧ (args = [] → s'.args = s.args) := by
  obtain ⟨s2, e0, ax, s3, e1, h1, hax, h2, hkw, hargs, hll, hnew, hfr, -⟩ :=
    add_plot_ok s args kw fx s' effs h
  obtain ⟨f1, f2, f3, -⟩ := figStage_ok _ _ _ h1
  obtain ⟨p1, p2, p3, pd⟩ := plotStage_ok _ _ _ _ h2
  constructor
  · intro hne'
    have hemp : args.isEmpty = false := by
      cases args with
      | nil => exact absurd rfl hne'
      | cons a as => rfl
    rw [hargs, p2, f1, updateVars_args, hemp]
    rfl
  · intro hae
    rw [hargs, p2, f1, updateVars_args, hae]
    rfl

/-- C6 counterexample: after `EasyPlot(1)` a subsequent `add_plot()` with no
positional data completes, yet the stored positional sequence still holds
the previous call's data instead of being empty. -/
theorem C6_cex_stale_args :
    construct [Val.int 1] [] allOpen =
      Except.ok (onePlotState, onePlotEffects) ∧
    add_plot onePlotState [] [] allOpen =
      Except.ok (staleArgsState, [Effect.draw]) ∧
    staleArgsState.args = [Val.int 1] ∧ staleArgsState.args ≠ [] :=
  ⟨rfl, rfl, rfl, by decide⟩

/-- C6 witness: `EasyPlot(1)` stores exactly the supplied positional data. -/
theorem C6_witness : onePlotState.args = [Val.int 1] :=
  (C6_args_replaced_only_on_new_data initState [Val.int 1] [] allOpen
    onePlotState onePlotEffects rfl).1 (by decide)

theorem isSome_dget_dset (d : Dict) (k : String) (v : Val) (q : String)
    (h : (dget d q).isSome) : (dget (dset d k v) q).isSome := by
  rw [dget_dset]
  by_cases hk : k = q <;> simp [hk, h]

theorem wfd_updateVars (s : EasyPlot) (args : List Val) (kw : Dict)
    (h : WFd s.kwargs) : WFd (updateVars s args kw).kwargs := by
  rw [updateVars_kwargs]
  exact wfd_mergeAll _ _ (wfd_applyAliases_fst _ _ _ h)

theorem wfd_figStage (s s2 : EasyPlot) (e0 : List Effect)
    (h : figStage s = Except.ok (s2, e0)) (hw : WFd s.kwargs) :
    WFd s2.kwargs := by
  obtain ⟨-, -, -, hd⟩ := figStage_ok _ _ _ h
  rcases hd with hd | hd
  · rw [hd.1]
    exact hw
  · rw [hd.2.1]
    exact wfd_dset _ _ _ (wfd_dset _ _ _ hw)

/-- C1: `add` deletes every single-use key (color, label, linestyle, marker,
colorcycle) from the persisted options after applying its effects, so a
single-use key set in one call is absent from the merged options at the
start of the next call unless it (or an alias of it) is supplied again. -/
theorem C1_uniqueparams_deleted (s : EasyPlot) (args : List Val) (kw : Dict)
    (fx : Nat → Bool) (s' : EasyPlot) (effs : List Effect) (k : String)
    (args2 : List Val) (kw2 : Dict)
    (hwf : WFd s.kwargs)
    (h : add_plot s args kw fx = Except.ok (s', effs))
    (hk : k ∈ uniqueParams)
    (hk2 : dget kw2 k = Option.none)
    (halias : ∀ a ∈ aliasList, a.2 = k → dget kw2 a.1 = Option.none) :
    dget s'.kwargs k = Option.none ∧
    dget (updateVars s' args2 kw2).kwargs k = Option.none := by
  obtain ⟨s2, e0, ax, s3, e1, h1, hax, h2, hkw, hargs, hll, hnew, hfr, -⟩ :=
    add_plot_ok s args kw fx s' effs h
  obtain ⟨p1, -, -, -⟩ := plotStage_ok _ _ _ _ h2
  have hw2 : WFd s2.kwargs :=
    wfd_figStage _ _ _ h1 (wfd_updateVars s args kw hwf)
  have hw3 : WFd s3.kwargs := by
    rw [p1]
    exact hw2
  have habs : dget s'.kwargs k = Option.none := by
    rw [hkw]
    exact dget_popAll_mem uniqueParams s3.kwargs k hw3 hk
  refine ⟨habs, ?_⟩
  rw [updateVars_kwargs]
  obtain ⟨hfst, hsnd⟩ :=
    applyAliases_dget_none aliasList s'.kwargs kw2 k habs hk2 halias
  exact dget_mergeAll_none _ _ _ hfst hsnd

/-- C1 witness: a color supplied to the constructor is gone from the
persisted options afterwards, and still absent after a merge that does not
re-supply it. -/
theorem C1_witness :
    dget postInitState.kwargs "color" = Option.none ∧
    dget (updateVars postInitState [] []).kwargs "color" = Option.none :=
  C1_uniqueparams_deleted initState [] [("color", Val.str "r")] allOpen
    postInitState initEffects "color" [] [] (by decide) rfl (by decide)
    (by decide) (by decide)

theorem isSome_dget_updateVars (s : EasyPlot) (args : List Val) (kw : Dict)
    (q : String) (h : (dget s.kwargs q).isSome) :
    (dget (updateVars s args kw).kwargs q).isSome := by
  rw [updateVars_kwargs]
  exact isSome_dget_mergeAll _ _ _ (applyAliases_fst_isSome _ _ _ _ h)

theorem defaultsPresent_add (s : EasyPlot) (args : List Val) (kw : Dict)
    (fx : Nat → Bool) (s' : EasyPlot) (effs : List Effect)
    (hd : defaultsPresentB s = true)
    (h : add_plot s args kw fx = Except.ok (s', effs)) :
    defaultsPresentB s' = true := by
  obtain ⟨s2, e0, ax, s3, e1, h1, hax, h2, hkw, hargs, hll, hnew, hfr, -⟩ :=
    add_plot_ok s args kw fx s' effs h
  obtain ⟨-, -, -, fd⟩ := figStage_ok _ _ _ h1
  obtain ⟨p1, -, -, -⟩ := plotStage_ok _ _ _ _ h2
  simp only [defaultsPresentB, List.all_eq_true] at hd ⊢
  intro k hk
  have hnu : k ∉ uniqueParams := by
    have hfact : ∀ q ∈ persistentDefaultKeys, q ∉ uniqueParams := by decide
    exact hfact k hk
  have h0 : (dget (updateVars s args kw).kwargs k).isSome =true :=
    isSome_dget_updateVars s args kw k (hd k hk)
  have h2s : (dget s2.kwargs k).isSome = true := by
    rcases fd with hcase | hcase
    · rw [hcase.1]
      exact h0
    · rw [hcase.2.1]
      exact isSome_dget_dset _ _ _ _ (isSome_dget_dset _ _ _ _ h0)
  have h3s : (dget s3.kwargs k).isSome = true := by
    rw [p1]
    exact h2s
  rw [hkw]
  show (dget (popAll uniqueParams s3.kwargs) k).isSome = true
  rw [dget_popAll_not_mem uniqueParams s3.kwargs k hnu]
  exact h3s

theorem defaultsPresent_new_prep (s : EasyPlot) (kw : Dict)
    (hd : defaultsPresentB s = true) :
    defaultsPresentB (new_prep s kw) = true := by
  simp only [defaultsPresentB, List.all_eq_true] at hd ⊢
  intro k hk
  have hbase : (dget (if ((dget kw "reset").getD (Val.bool false)).truthy
      then defaultKwargs else s.kwargs) k).isSome = true := by
    by_cases hr : ((dget kw "reset").getD (Val.bool false)).truthy
    · rw [if_pos hr]
      have hfact : ∀ q ∈ persistentDefaultKeys,
          (dget defaultKwargs q).isSome = true := by decide
      exact hfact k hk
    · rw [if_neg hr]
      exact hd k hk
  show (dget (new_prep s kw).kwargs k).isSome = true
  have hexp : (new_prep s kw).kwargs =
      dset (dset (if ((dget kw "reset").getD (Val.bool false)).truthy
        then defaultKwargs else s.kwargs) "fig" Val.none) "ax" Val.none := rfl
  rw [hexp]
  exact isSome_dget_dset _ _ _ _ (isSome_dget_dset _ _ _ _ hbase)

/-- C4, amended: after construction and after every completed
`add`/`update`/`new` call the persisted options contain every default key
EXCEPT `label`: `label` is both a default key and a single-use key, so it is
deleted again at the end of every call. -/
theorem C4_default_keys_present :
    (∀ args kw fx s' effs, construct args kw fx = Except.ok (s', effs) →
       defaultsPresentB s' = true) ∧
    (∀ s args kw fx s' effs, defaultsPresentB s = true →
       add_plot s args kw fx = Except.ok (s', effs) →
       defaultsPresentB s' = true) ∧
    (∀ s kw fx s' effs, defaultsPresentB s = true →
       update_plot s kw fx = Except.ok (s', effs) →
       defaultsPresentB s' = true) ∧
    (∀ s args kw fx s' effs, defaultsPresentB s = true →
       new_plot s args kw fx = Except.ok (s', effs) →
       defaultsPresentB s' = true) := by
  refine ⟨?_, ?_, ?_, ?_⟩
  · intro args kw fx s' effs h
    exact defaultsPresent_add initState args kw fx s' effs (by decide) h
  · intro s args kw fx s' effs hd h
    exact defaultsPresent_add s args kw fx s' effs hd h
  · intro s kw fx s' effs hd h
    exact defaultsPresent_add s [] kw fx s' effs hd h
  · intro s args kw fx s' effs hd h
    exact defaultsPresent_add (new_prep s kw) args kw fx s' effs
      (defaultsPresent_new_prep s kw hd) h

/-- C4 counterexample: `label` is in the default set, yet immediately after
a plain construction it is absent from the persisted options. -/
theorem C4_cex_label_deleted :
    construct [] [] allOpen = Except.ok (postInitState, initEffects) ∧
    dget defaultKwargs "label" = some Val.none ∧
    "label" ∈ uniqueParams ∧
    dget postInitState.kwargs "label" = Option.none :=
  ⟨rfl, rfl, by decide, rfl⟩

/-- C4 witness: after a plain construction all default keys except `label`
are present. -/
theorem C4_witness : defaultsPresentB postInitState = true :=
  C4_default_keys_present.1 [] [] allOpen postInitState initEffects rfl

/-- C2: when one call supplies both an alias key and its canonical
counterpart, the alias is rewritten to the canonical name first and the
canonical key's value wins in the merged options; if the canonical name is
not single-use, that value is still stored after the whole call. -/
theorem C2_canonical_key_wins (s : EasyPlot) (args : List Val) (kw : Dict)
    (fx : Nat → Bool) (s' : EasyPlot) (effs : List Effect)
    (a canon : String) (va vc : Val)
    (hal : (a, canon) ∈ aliasList) (hwf : WFd kw)
    (ha : dget kw a = some va) (hc : dget kw canon = some vc) :
    dget (updateVars s args kw).kwargs canon = some vc ∧
    (canon ∉ uniqueParams → add_plot s args kw fx = Except.ok (s', effs) →
      dget s'.kwargs canon = some vc) := by
  have hnosrc : ∀ p ∈ aliasList, p.1 ≠ canon := by
    have hfact : ∀ p ∈ aliasList, ∀ q ∈ aliasList, p.1 ≠ q.2 := by decide
    exact fun p hp => hfact p hp (a, canon) hal
  have hmerged : dget (updateVars s args kw).kwargs canon = some vc := by
    rw [updateVars_kwargs]
    refine dget_mergeAll_of_wf _ _ _ _
      (wfd_applyAliases_snd aliasList s.kwargs kw hwf) ?_
    rw [applyAliases_snd_dget aliasList s.kwargs kw canon hnosrc]
    exact hc
  refine ⟨hmerged, fun hnu h => ?_⟩
  obtain ⟨s2, e0, ax, s3, e1, h1, hax, h2, hkw, hargs, hll, hnew, hfr, -⟩ :=
    add_plot_ok s args kw fx s' effs h
  obtain ⟨-, -, -, fd⟩ := figStage_ok _ _ _ h1
  obtain ⟨p1, -, -, -⟩ := plotStage_ok _ _ _ _ h2
  have hnfig : canon ≠ "fig" ∧ canon ≠ "ax" := by
    have hfact2 : ∀ q ∈ aliasList, q.2 ≠ "fig" ∧ q.2 ≠ "ax" := by decide
    exact hfact2 (a, canon) hal
  have h2v : dget s2.kwargs canon = some vc := by
    rcases fd with hcase | hcase
    · rw [hcase.1]
      exact hmerged
    · rw [hcase.2.1, dget_dset, if_neg (fun hh => hnfig.2 hh.symm),
          dget_dset, if_neg (fun hh => hnfig.1 hh.symm)]
      exact hmerged
  have h3v : dget s3.kwargs canon = some vc := by
    rw [p1]
    exact h2v
  rw [hkw]
  show dget (popAll uniqueParams s3.kwargs) canon = some vc
  rw [dget_popAll_not_mem uniqueParams s3.kwargs canon hnu]
  exact h3v

/-- C2 witness: `EasyPlot(lw=1, linewidth=2)` stores `linewidth = 2`, both
in the merged options and after the call completes. -/
theorem C2_witness :
    dget (updateVars initState []
      [("lw", Val.int 1), ("linewidth", Val.int 2)]).kwargs "linewidth" =
      some (Val.int 2) ∧
    dget lwState.kwargs "linewidth" = some (Val.int 2) := by
  have h := C2_canonical_key_wins initState []
    [("lw", Val.int 1), ("linewidth", Val.int 2)] allOpen lwState
    [Effect.createFig Val.none, Effect.addAxes (Val.handle 0) (Val.handle 1),
     Effect.draw] "lw" "linewidth" (Val.int 1) (Val.int 2)
    (by decide) (by decide) rfl rfl
  exact ⟨h.1, h.2 (by decide) rfl⟩

/-- C5: `new` hands over to `add` after a preparation step; with
`reset=True` and no other options that step leaves the persisted options
exactly equal to the default set, with a falsy/absent `reset` it preserves
every option other than the `fig`/`ax` entries; in both cases the line list
and pending args are cleared and the `fig`/`ax` entries are set to `None`,
forcing fresh creation on the subsequent add. -/
theorem C5_new_reset_behaviour :
    (∀ (s : EasyPlot) (args : List Val) (kw : Dict) (fx : Nat → Bool),
       new_plot s args kw fx = add_plot (new_prep s kw) args kw fx) ∧
    (∀ s : EasyPlot,
       (new_prep s [("reset", Val.bool true)]).kwargs = defaultKwargs ∧
       (new_prep s [("reset", Val.bool true)]).line_list = [] ∧
       (new_prep s [("reset", Val.bool true)]).args = []) ∧
    (∀ (s : EasyPlot) (kw : Dict),
       ((dget kw "reset").getD (Val.bool false)).truthy = false →
       (new_prep s kw).line_list = [] ∧ (new_prep s kw).args = [] ∧
       dget (new_prep s kw).kwargs "fig" = some Val.none ∧
       dget (new_prep s kw).kwargs "ax" = some Val.none ∧
       (∀ q, q ≠ "fig" → q ≠ "ax" →
         dget (new_prep s kw).kwargs q = dget s.kwargs q)) := by
  refine ⟨fun s args kw fx => rfl, fun s => ⟨?_, rfl, rfl⟩, fun s kw hr => ?_⟩
  · show dset (dset defaultKwargs "fig" Val.none) "ax" Val.none = defaultKwargs
    decide
  · have hkw : (new_prep s kw).kwargs =
        dset (dset s.kwargs "fig" Val.none) "ax" Val.none := by
      show dset (dset (if ((dget kw "reset").getD (Val.bool false)).truthy
        then defaultKwargs else s.kwargs) "fig" Val.none) "ax" Val.none = _
      rw [hr]
      rfl
    refine ⟨rfl, rfl, ?_, ?_, ?_⟩
    · rw [hkw, dget_dset, if_neg (by decide), dget_dset, if_pos rfl]
    · rw [hkw, dget_dset, if_pos rfl]
    · intro q hqf hqa
      rw [hkw, dget_dset, if_neg (fun hh => hqa hh.symm),
          dget_dset, if_neg (fun hh => hqf hh.symm)]

/-- C5 witness: on a concrete attached session, `new_prep` with
`reset=True` restores the defaults, and with no options it preserves a
previously set non-single-use option such as `loc`. -/
theorem C5_witness :
    (new_prep postInitState [("reset", Val.bool true)]).kwargs =
      defaultKwargs ∧
    dget (new_prep postInitState []).kwargs "loc" =
      dget postInitState.kwargs "loc" :=
  ⟨(C5_new_reset_behaviour.2.1 postInitState).1,
   (C5_new_reset_behaviour.2.2 postInitState [] (by decide)).2.2.2.2 "loc"
     (by decide) (by decide)⟩

/-- C7: `update_plot(**kwargs)` is exactly `add_plot` with no positional
data: same resulting session state and same effect trace, for every state
and option mapping. -/
theorem C7_update_is_add_no_args :
    ∀ (s : EasyPlot) (kw : Dict) (fx : Nat → Bool),
      update_plot s kw fx = add_plot s [] kw fx :=
  fun _ _ _ => rfl

/-- C8: `autoscale` never changes the session state; its effects are the
forwarded autoscale request followed by the effects of a redraw. -/
theorem C8_autoscale_pure (s : EasyPlot) (enable axis tight : Val)
    (fx : Nat → Bool) (s' : EasyPlot) (effs : List Effect)
    (h : autoscale s enable axis tight fx = Except.ok (s', effs)) :
    s' = s ∧ ∃ r, redraw s fx = Except.ok r ∧
      effs = Effect.autoscaleEff enable axis tight :: r := by
  unfold autoscale at h
  unfold get_axes at h
  cases hax : dget s.kwargs "ax" with
  | none =>
    rw [hax] at h
    exact absurd h (by simp)
  | some ax =>
    rw [hax] at h
    dsimp only at h
    cases ax with
    | handle m =>
      cases hr : redraw s fx with
      | error e =>
        rw [hr] at h
        exact absurd h (by simp)
      | ok r =>
        rw [hr] at h
        dsimp only at h
        simp only [Except.ok.injEq, Prod.mk.injEq] at h
        obtain ⟨h1, h2⟩ := h
        exact ⟨h1.symm, r, rfl, h2.symm⟩
    | none => exact absurd h (by simp)
    | bool b => exact absurd h (by simp)
    | int n => exact absurd h (by simp)
    | num q => exact absurd h (by simp)
    | str t => exact absurd h (by simp)

/-- C8 witness: a concrete autoscale call on an attached session returns
the state unchanged with exactly the autoscale request and a redraw. -/
theorem C8_witness :
    postInitState = postInitState ∧
    ∃ r, redraw postInitState allOpen = Except.ok r ∧
      [Effect.autoscaleEff (Val.bool true) (Val.str "both") Val.none,
       Effect.draw] =
        Effect.autoscaleEff (Val.bool true) (Val.str "both") Val.none :: r :=
  C8_autoscale_pure postInitState (Val.bool true) (Val.str "both") Val.none
    allOpen postInitState
    [Effect.autoscaleEff (Val.bool true) (Val.str "both") Val.none,
     Effect.draw] rfl

/-- C9, amended: after every completed `add`/`update`/`new` call the canvas
(`fig`) entry holds a figure handle, and the surface (`ax`) entry holds an
axes handle whenever the merged options had no figure (the creation branch
ran); but `ax` can remain `None` when the caller supplied a figure without
axes, so the original claim's unconditional non-null surface is false. -/
theorem C9_fig_set_ax_set_when_created (s : EasyPlot) (args : List Val)
    (kw : Dict) (fx : Nat → Bool) (s' : EasyPlot) (effs : List Effect)
    (h : add_plot s args kw fx = Except.ok (s', effs)) :
    (∃ n, dget s'.kwargs "fig" = some (Val.handle n)) ∧
    (dget (updateVars s args kw).kwargs "fig" = some Val.none →
      ∃ m, dget s'.kwargs "ax" = some (Val.handle m)) := by
  obtain ⟨s2, e0, ax, s3, e1, h1, hax, h2, hkw, hargs, hll, hnew, hfr, hfig⟩ :=
    add_plot_ok s args kw fx s' effs h
  obtain ⟨p1, -, -, -⟩ := plotStage_ok _ _ _ _ h2
  refine ⟨hfig, fun hm => ?_⟩
  obtain ⟨-, -, -, fd⟩ := figStage_ok _ _ _ h1
  rcases fd with hcase | hcase
  · obtain ⟨-, fv, hfv, hne⟩ := hcase
    have : (some fv : Option Val) = some Val.none := hfv.symm.trans hm
    injection this with hfveq
    exact absurd hfveq hne
  · obtain ⟨-, hk2, -⟩ := hcase
    have h2ax : dget s2.kwargs "ax" =
        some (Val.handle ((updateVars s args kw).fresh + 1)) := by
      rw [hk2, dget_dset, if_pos rfl]
    have h3ax : dget s3.kwargs "ax" =
        some (Val.handle ((updateVars s args kw).fresh + 1)) := by
      rw [p1]
      exact h2ax
    refine ⟨(updateVars s args kw).fresh + 1, ?_⟩
    rw [hkw]
    show dget (popAll uniqueParams s3.kwargs) "ax" =
      some (Val.handle ((updateVars s args kw).fresh + 1))
    rw [dget_popAll_not_mem uniqueParams s3.kwargs "ax" (by decide)]
    exact h3ax

/-- C9 counterexample: constructing with an externally supplied figure but
no axes completes, yet the surface entry is `None` afterwards, refuting the
claim that both handles are non-null after every completed call. -/
theorem C9_cex_external_fig_leaves_ax_none :
    construct [] [("fig", Val.handle 99)] allOpen =
      Except.ok (figOnlyState, [Effect.draw]) ∧
    dget figOnlyState.kwargs "ax" = some Val.none :=
  ⟨rfl, rfl⟩

/-- C9 witness: after a plain construction both handles are set. -/
theorem C9_witness :
    (∃ n, dget postInitState.kwargs "fig" = some (Val.handle n)) ∧
    (∃ m, dget postInitState.kwargs "ax" = some (Val.handle m)) := by
  have h := C9_fig_set_ax_set_when_created initState [] [] allOpen
    postInitState initEffects rfl
  exact ⟨h.1, h.2 rfl⟩

/-- C10, amended: a caller-supplied surface handle is discarded and both
entries replaced by freshly created ones exactly when the merged options
have no canvas handle (always the case at construction); on an attached
session the supplied surface is kept and drawn to, so the original
universally quantified claim is false. -/
theorem C10_supplied_ax_discarded_when_fig_unset (s : EasyPlot)
    (args : List Val) (kw : Dict) (fx : Nat → Bool) (s' : EasyPlot)
    (effs : List Effect) (v : Val)
    (hsup : dget kw "ax" = some v)
    (hm : dget (updateVars s args kw).kwargs "fig" = some Val.none)
    (h : add_plot s args kw fx = Except.ok (s', effs)) :
    dget s'.kwargs "fig" = some (Val.handle s.fresh) ∧
    dget s'.kwargs "ax" = some (Val.handle (s.fresh + 1)) := by
  obtain ⟨s2, e0, ax, s3, e1, h1, hax, h2, hkw, hargs, hll, hnew, hfr, -⟩ :=
    add_plot_ok s args kw fx s' effs h
  obtain ⟨p1, -, -, -⟩ := plotStage_ok _ _ _ _ h2
  obtain ⟨-, -, -, fd⟩ := figStage_ok _ _ _ h1
  rcases fd with hcase | hcase
  · obtain ⟨-, fv, hfv, hne⟩ := hcase
    have : (some fv : Option Val) = some Val.none := hfv.symm.trans hm
    injection this with hfveq
    exact absurd hfveq hne
  · obtain ⟨-, hk2, -⟩ := hcase
    have hfr1 : (updateVars s args kw).fresh = s.fresh :=
      updateVars_fresh s args kw
    have h2f : dget s2.kwargs "fig" = some (Val.handle s.fresh) := by
      rw [hk2, dget_dset, if_neg (by decide), dget_dset, if_pos rfl, hfr1]
    have h2a : dget s2.kwargs "ax" = some (Val.handle (s.fresh + 1)) := by
      rw [hk2, dget_dset, if_pos rfl, hfr1]
    constructor
    · rw [hkw]
      show dget (popAll uniqueParams s3.kwargs) "fig" =
        some (Val.handle s.fresh)
      rw [dget_popAll_not_mem uniqueParams s3.kwargs "fig" (by decide), p1]
      exact h2f
    · rw [hkw]
      show dget (popAll uniqueParams s3.kwargs) "ax" =
        some (Val.handle (s.fresh + 1))
      rw [dget_popAll_not_mem uniqueParams s3.kwargs "ax" (by decide), p1]
      exact h2a

/-- C10 counterexample: on an already attached session, `add_plot` with a
supplied `ax` and no `fig` keeps the supplied surface and draws the new
line on it — it is not discarded. -/
theorem C10_cex_supplied_ax_used_when_attached :
    construct [] [] allOpen = Except.ok (postInitState, initEffects) ∧
    add_plot postInitState [Val.int 5] [("ax", Val.handle 77)] allOpen =
      Except.ok (axSuppliedState,
        [Effect.plotLine (Val.handle 77) [Val.int 5] [], Effect.draw]) ∧
    dget axSuppliedState.kwargs "ax" = some (Val.handle 77) :=
  ⟨rfl, rfl, rfl⟩

/-- C10 witness: at construction (canvas unset) a supplied `ax` is replaced
by freshly created figure and axes handles. -/
theorem C10_witness :
    dget postInitState.kwargs "fig" = some (Val.handle 0) ∧
    dget postInitState.kwargs "ax" = some (Val.handle 1) :=
  C10_supplied_ax_discarded_when_fig_unset initState [] [("ax", Val.handle 5)]
    allOpen postInitState initEffects (Val.handle 5) rfl rfl rfl
